import Mathlib

/-!
Verification of the symengine.js boundary layer (src/lib.rs, src/symengine.rs,
src/symengine_ffi.rs) against its natural-language specification.

The development has three parts:
1. `AllocBridge`: a byte-level model of the C-compatible allocator bridge
   (malloc / free / calloc / realloc, src/lib.rs lines 18-100).
2. `Lifetime`: a trace model of native-handle ownership (Expr and Matrix
   wrappers, their Drop and Clone impls, src/symengine.rs).
3. `Wrapper`: the safe wrapper and the exported entry points, parameterized
   over an abstract native engine (the external SymEngine library is not part
   of this repository; only the call shapes and the status-code handling that
   appear in src/ are modelled).
-/

namespace AllocBridge

/-- Header size reserved in front of every block (src/lib.rs line 18). -/
def HEADER : Nat := 16

/-- Modulus of wasm32 usize arithmetic.  The additions `size + HEADER` in the
source are usize additions and wrap modulo 2^32 in a release build. -/
def USZ : Nat := 2 ^ 32

/-- A live block of the host (Rust) allocator: start address and the layout
size it was allocated with. -/
structure Block where
  addr : Nat
  size : Nat
deriving DecidableEq, Repr

/-- State of the modelled memory: the bump pointer of the host allocator, the
live host blocks, and the byte contents of memory. -/
structure Heap where
  next : Nat
  blocks : List Block
  mem : Nat → Nat

/-- Initial heap.  The byte contents `m0` are arbitrary (host memory is not
zero-initialised); the bump pointer starts past address 0 so that no block is
ever allocated at the null address. -/
def emptyHeap (m0 : Nat → Nat) : Heap :=
  { next := 16, blocks := [], mem := m0 }

/-- Write one byte. -/
def writeByte (m : Nat → Nat) (a v : Nat) : Nat → Nat :=
  fun x => if x = a then v % 256 else m x

/-- Write a 4-byte little-endian usize (wasm32) at address `a`. -/
def writeUsizeBytes (m : Nat → Nat) (a v : Nat) : Nat → Nat :=
  writeByte (writeByte (writeByte (writeByte m a v) (a + 1) (v / 256))
    (a + 2) (v / 256 ^ 2)) (a + 3) (v / 256 ^ 3)

/-- Read a 4-byte little-endian usize (wasm32) at address `a`. -/
def readUsize (m : Nat → Nat) (a : Nat) : Nat :=
  m a + 256 * m (a + 1) + 256 ^ 2 * m (a + 2) + 256 ^ 3 * m (a + 3)

/-- An `n`-byte access at address `a` is in bounds when it lies inside some
live host block. -/
def Heap.inBounds (h : Heap) (a n : Nat) : Bool :=
  h.blocks.any (fun b => decide (b.addr ≤ a) && decide (a + n ≤ b.addr + b.size))

/-- Store a usize, checking that the 4 bytes written lie inside a live block.
A `none` result marks undefined behavior (out-of-bounds write). -/
def Heap.storeUsize (h : Heap) (a v : Nat) : Option Heap :=
  if h.inBounds a 4 then some { h with mem := writeUsizeBytes h.mem a v } else none

/-- Load a usize, checking bounds.  `none` marks undefined behavior. -/
def Heap.loadUsize (h : Heap) (a : Nat) : Option Nat :=
  if h.inBounds a 4 then some (readUsize h.mem a) else none

/-- Round an address up to the 16-byte alignment the source requests. -/
def alignUp (a : Nat) : Nat := (a + 15) / 16 * 16

/-- Host allocator (std alloc).  A zero-size layout violates the GlobalAlloc
contract, so it is undefined behavior (`none`).  Otherwise the model always
succeeds with a fresh aligned block; when `zeroed` is set the fresh bytes are
zero-filled (alloc_zeroed), otherwise they keep their previous contents. -/
def hostAlloc (h : Heap) (total : Nat) (zeroed : Bool) : Option (Heap × Nat) :=
  if total = 0 then none
  else
    let raw := alignUp h.next
    let mem := if zeroed
      then fun x => if raw ≤ x ∧ x < raw + total then 0 else h.mem x
      else h.mem
    some ({ next := raw + total, blocks := ⟨raw, total⟩ :: h.blocks, mem := mem }, raw)

/-- Host deallocation: the deallocated layout must match a live block exactly,
otherwise the call is undefined behavior (`none`). -/
def hostDealloc (h : Heap) (a total : Nat) : Option Heap :=
  if Block.mk a total ∈ h.blocks then
    some { h with blocks := h.blocks.erase ⟨a, total⟩ }
  else none

/-- Host realloc (std alloc realloc): the old layout must match a live block
and the new size must be nonzero; the surviving prefix of the contents is
copied to the fresh location. -/
def hostRealloc (h : Heap) (a oldTotal newTotal : Nat) : Option (Heap × Nat) :=
  if newTotal = 0 then none
  else if Block.mk a oldTotal ∈ h.blocks then
    let rest := h.blocks.erase ⟨a, oldTotal⟩
    let raw := alignUp h.next
    let mem := fun x =>
      if raw ≤ x ∧ x < raw + min oldTotal newTotal then h.mem (a + (x - raw)) else h.mem x
    some ({ next := raw + newTotal, blocks := ⟨raw, newTotal⟩ :: rest, mem := mem }, raw)
  else none

/-- Embedding of `fn malloc` (src/lib.rs lines 21-33): return null for size 0,
otherwise allocate `size + HEADER` bytes (usize addition, wrapping), stamp the
requested size into the header, and return the address just past the header.
The null-on-host-failure branch of the source is not exercised because the
modelled host always succeeds on a valid layout. -/
def malloc (h : Heap) (size : Nat) : Option (Heap × Nat) :=
  if size = 0 then some (h, 0)
  else
    let total := (size + HEADER) % USZ
    match hostAlloc h total false with
    | none => none
    | some (h1, raw) =>
      match h1.storeUsize raw size with
      | none => none
      | some h2 => some (h2, raw + HEADER)

/-- Embedding of `fn free` (src/lib.rs lines 36-45): no-op on null, otherwise
read the size header just before the pointer, reconstruct the layout, and
release the block.  Wrapper-produced pointers always satisfy `HEADER ≤ ptr`,
so truncated subtraction agrees with the pointer arithmetic of the source. -/
def free (h : Heap) (ptr : Nat) : Option Heap :=
  if ptr = 0 then some h
  else
    let raw := ptr - HEADER
    match h.loadUsize raw with
    | none => none
    | some size =>
      let total := (size + HEADER) % USZ
      hostDealloc h raw total

/-- Embedding of `fn calloc` (src/lib.rs lines 48-64): checked multiplication
(null on overflow), null on a zero total, otherwise a zero-filled allocation
with the total size stamped into the header. -/
def calloc (h : Heap) (nmemb size : Nat) : Option (Heap × Nat) :=
  if USZ ≤ nmemb * size then some (h, 0)
  else if nmemb * size = 0 then some (h, 0)
  else
    let totalSize := nmemb * size
    let total := (totalSize + HEADER) % USZ
    match hostAlloc h total true with
    | none => none
    | some (h1, raw) =>
      match h1.storeUsize raw totalSize with
      | none => none
      | some h2 => some (h2, raw + HEADER)

/-- Embedding of `fn realloc` (src/lib.rs lines 67-86): malloc on a null
pointer, free-and-return-null on a zero new size, otherwise reconstruct the
old layout from the header, host-realloc, and re-stamp the new size. -/
def realloc (h : Heap) (ptr newSize : Nat) : Option (Heap × Nat) :=
  if ptr = 0 then malloc h newSize
  else if newSize = 0 then
    match free h ptr with
    | none => none
    | some h1 => some (h1, 0)
  else
    let raw := ptr - HEADER
    match h.loadUsize raw with
    | none => none
    | some oldSize =>
      let oldTotal := (oldSize + HEADER) % USZ
      let newTotal := (newSize + HEADER) % USZ
      match hostRealloc h raw oldTotal newTotal with
      | none => none
      | some (h1, newRaw) =>
        match h1.storeUsize newRaw newSize with
        | none => none
        | some h2 => some (h2, newRaw + HEADER)

/-- The composite program free(malloc(s)); `none` marks undefined behavior. -/
def mallocThenFree (m0 : Nat → Nat) (s : Nat) : Option Heap :=
  match malloc (emptyHeap m0) s with
  | none => none
  | some (h1, p1) => free h1 p1

/-- The composite program realloc(malloc(s1), s2). -/
def mallocThenRealloc (m0 : Nat → Nat) (s1 s2 : Nat) : Option (Heap × Nat) :=
  match malloc (emptyHeap m0) s1 with
  | none => none
  | some (h1, p1) => realloc h1 p1 s2

/-- The outcome claimed by the spec for resize-after-allocate: a (non-null)
block is returned and the usize stored in the 16 header bytes immediately
preceding the returned pointer reads exactly `s2`. -/
def reallocHeaderReports (m0 : Nat → Nat) (s1 s2 : Nat) : Prop :=
  ∃ h p, mallocThenRealloc m0 s1 s2 = some (h, p) ∧ p ≠ 0 ∧
    h.loadUsize (p - HEADER) = some s2

/-- Memory whose initial contents are all zero, used for concrete witnesses. -/
def zeroMem : Nat → Nat := fun _ => 0

end AllocBridge

namespace Lifetime

/-- An event on a native heap object, identified by an abstract id standing
for the pointer returned by basic_new_heap / dense_matrix_new(_rows_cols):
allocation, a read of the pointer by an FFI call, or release by
basic_free_heap / dense_matrix_free. -/
inductive Ev where
  | alloc (id : Nat)
  | use (id : Nat)
  | free (id : Nat)
deriving DecidableEq, Repr

/-- Kind of a wrapper handle: an Expr owns a heap Basic, a Matrix owns a
CDenseMatrix. -/
inductive HKind where
  | expr
  | matrix
deriving DecidableEq, Repr

/-- One wrapper constructor, transformation or drop, as it appears in
src/symengine.rs.  Handles are named by their abstract native id. -/
inductive Op where
  /-- Expr::parse / symbol / integer / integer_from_str / rational /
  real_double / the const_fn constants (lines 59-130): one basic_new_heap,
  result owned by the returned Expr. -/
  | construct
  /-- The unary_op shape and diff / subs / evalf / expand (lines 17-27,
  197-239): basic_new_heap for the result, then one read of self. -/
  | unary (id : Nat)
  /-- The binary_op shape and coeff-like calls: basic_new_heap for the
  result, then reads of self and other. -/
  | binary (a b : Nat)
  /-- impl Clone for Expr (lines 424-432): basic_new_heap then
  basic_assign reading the source. -/
  | cloneE (id : Nat)
  /-- Expr::numer_denom (lines 286-293): two basic_new_heap calls, then one
  read of self; both fresh objects are returned as owned Exprs. -/
  | numerDenom (id : Nat)
  /-- Expr::free_symbols / solve_poly (lines 309-351): reads self, then
  allocates a temporary Basic with basic_new_heap and releases it with
  basic_free_heap before returning.  The transient native set container is
  engine-side and outside the Expr/Matrix object population. -/
  | freeSymbols (id : Nat)
  /-- Drop for Expr (line 418-422) or Matrix (line 590-594) running early,
  at the close of an inner scope: one release of the owned object. -/
  | dropH (id : Nat)
  /-- Matrix::from_vec (lines 504-514): one dense_matrix_new_rows_cols, then
  one read per element Expr.  With cols = 0 and a nonempty element list the
  u32 divisions panic, so no state results. -/
  | matrixFromVec (rows cols : Nat) (elems : List Nat)
  /-- Matrix::det / get (lines 524-538): basic_new_heap for the scalar
  result, then a read of the matrix. -/
  | matrixDet (id : Nat)
  /-- Matrix::inv / transpose (lines 540-554): dense_matrix_new for the
  result, then a read of the input matrix. -/
  | matrixUnary (id : Nat)
  /-- Matrix::mul / add (lines 556-570): dense_matrix_new for the result,
  then reads of both inputs. -/
  | matrixBinary (a b : Nat)
deriving DecidableEq, Repr

/-- Wrapper state: the next fresh native id, the ids currently owned by
in-scope wrapper values in declaration order, their kinds, and the event
trace so far. -/
structure St where
  next : Nat
  live : List Nat
  kinds : List (Nat × HKind)
  trace : List Ev
deriving DecidableEq, Repr

/-- The handle `id` is a live wrapper value of kind `k`. -/
def St.isLive (st : St) (id : Nat) (k : HKind) : Bool :=
  st.live.contains id && decide (st.kinds.lookup id = some k)

/-- Allocate one fresh object of kind `k` and read the handles in `uses`:
the common shape of every constructor and transformation except
numer_denom and the container-using calls. -/
def allocStep (st : St) (k : HKind) (uses : List Nat) : St :=
  { next := st.next + 1,
    live := st.live ++ [st.next],
    kinds := st.kinds ++ [(st.next, k)],
    trace := st.trace ++ (Ev.alloc st.next :: uses.map Ev.use) }

/-- Allocate two fresh Exprs then read the handles in `uses`
(Expr::numer_denom). -/
def allocStep2 (st : St) (uses : List Nat) : St :=
  { next := st.next + 2,
    live := st.live ++ [st.next, st.next + 1],
    kinds := st.kinds ++ [(st.next, HKind.expr), (st.next + 1, HKind.expr)],
    trace := st.trace ++
      (Ev.alloc st.next :: Ev.alloc (st.next + 1) :: uses.map Ev.use) }

/-- Read the handles in `uses`, then allocate and release a temporary Basic
inside the call (Expr::free_symbols / solve_poly). -/
def tempStep (st : St) (uses : List Nat) : St :=
  { next := st.next + 1,
    live := st.live,
    kinds := st.kinds,
    trace := st.trace ++ (uses.map Ev.use ++ [Ev.alloc st.next, Ev.free st.next]) }

/-- Release one owned object and remove the handle from scope (Drop). -/
def dropStep (st : St) (id : Nat) : St :=
  { next := st.next,
    live := st.live.erase id,
    kinds := st.kinds,
    trace := st.trace ++ [Ev.free id] }

/-- Small-step semantics of one wrapper operation.  `none` means the
operation is not applicable (it names a handle that is not live with the
required kind) or panics (from_vec with cols = 0 and elements). -/
def St.step (st : St) : Op → Option St
  | Op.construct => some (allocStep st HKind.expr [])
  | Op.unary id =>
      if st.isLive id HKind.expr then some (allocStep st HKind.expr [id]) else none
  | Op.binary a b =>
      if st.isLive a HKind.expr ∧ st.isLive b HKind.expr then
        some (allocStep st HKind.expr [a, b])
      else none
  | Op.cloneE id =>
      if st.isLive id HKind.expr then some (allocStep st HKind.expr [id]) else none
  | Op.numerDenom id =>
      if st.isLive id HKind.expr then some (allocStep2 st [id]) else none
  | Op.freeSymbols id =>
      if st.isLive id HKind.expr then some (tempStep st [id]) else none
  | Op.dropH id =>
      if st.live.contains id then some (dropStep st id) else none
  | Op.matrixFromVec _rows cols elems =>
      if cols = 0 ∧ elems ≠ [] then none
      else if elems.all (fun e => st.isLive e HKind.expr) then
        some (allocStep st HKind.matrix elems)
      else none
  | Op.matrixDet id =>
      if st.isLive id HKind.matrix then some (allocStep st HKind.expr [id]) else none
  | Op.matrixUnary id =>
      if st.isLive id HKind.matrix then some (allocStep st HKind.matrix [id]) else none
  | Op.matrixBinary a b =>
      if st.isLive a HKind.matrix ∧ st.isLive b HKind.matrix then
        some (allocStep st HKind.matrix [a, b])
      else none

/-- Run a sequence of wrapper operations. -/
def run : St → List Op → Option St
  | st, [] => some st
  | st, op :: ops =>
      match st.step op with
      | none => none
      | some st1 => run st1 ops

/-- The empty starting state. -/
def st0 : St := { next := 0, live := [], kinds := [], trace := [] }

/-- Scope exit: every still-owned wrapper value is dropped, in reverse
declaration order as Rust drops locals, each firing exactly one release. -/
def scopeExit (st : St) : St :=
  { next := st.next, live := [], kinds := st.kinds,
    trace := st.trace ++ st.live.reverse.map Ev.free }

/-- Number of allocation events for object `id` in a trace. -/
def allocCount (tr : List Ev) (id : Nat) : Nat := tr.count (Ev.alloc id)

/-- Number of release events for object `id` in a trace. -/
def freeCount (tr : List Ev) (id : Nat) : Nat := tr.count (Ev.free id)

/-- Test for an allocation event. -/
def isAllocEv : Ev → Bool
  | Ev.alloc _ => true
  | _ => false

/-- Test for a release event. -/
def isFreeEv : Ev → Bool
  | Ev.free _ => true
  | _ => false

/-- No object is read after it has been released. -/
def NoUseAfterFree (tr : List Ev) : Prop :=
  ∀ m n id, m < n → tr.get? m = some (Ev.free id) → tr.get? n ≠ some (Ev.use id)

/-- How many native objects each operation allocates (basic_new_heap and
dense_matrix_new(_rows_cols) calls in its body). -/
def Op.allocs : Op → Nat
  | Op.construct => 1
  | Op.unary _ => 1
  | Op.binary _ _ => 1
  | Op.cloneE _ => 1
  | Op.numerDenom _ => 2
  | Op.freeSymbols _ => 1
  | Op.dropH _ => 0
  | Op.matrixFromVec _ _ _ => 1
  | Op.matrixDet _ => 1
  | Op.matrixUnary _ => 1
  | Op.matrixBinary _ _ => 1

/-- A concrete program exercising construction, arithmetic, numer_denom, an
early drop, free_symbols, matrix construction and determinant. -/
def opsW : List Op :=
  [Op.construct, Op.construct, Op.binary 0 1, Op.numerDenom 2,
   Op.dropH 0, Op.freeSymbols 1, Op.matrixFromVec 2 2 [1, 2, 3, 4], Op.matrixDet 6]

/-- The state reached by the concrete program. -/
def stW : St := (run st0 opsW).getD st0

/-- Invariant maintained by every reachable wrapper state. -/
structure Inv (st : St) : Prop where
  live_lt : ∀ id ∈ st.live, id < st.next
  live_nodup : st.live.Nodup
  alloc_le_one : ∀ id, allocCount st.trace id ≤ 1
  alloc_fresh : ∀ id, st.next ≤ id → allocCount st.trace id = 0
  free_fresh : ∀ id, st.next ≤ id → freeCount st.trace id = 0
  live_alloc : ∀ id ∈ st.live, allocCount st.trace id = 1
  live_nofree : ∀ id ∈ st.live, freeCount st.trace id = 0
  dead_balanced : ∀ id, id ∉ st.live → freeCount st.trace id = allocCount st.trace id
  nuaf : NoUseAfterFree st.trace
  total : st.trace.countP (fun e => isFreeEv e) + st.live.length =
    st.trace.countP (fun e => isAllocEv e)

end Lifetime

namespace Wrapper

/-- Abstract interface of the external native engine (the cwrapper API
declared in src/symengine_ffi.rs).  The engine itself is not part of this
repository, so its behavior is a parameter: for each FFI call the interface
provides the value the call writes into its out-parameter and the c_int
status code it returns.  What the wrapper in src/symengine.rs does with
those statuses is exactly what is embedded below. -/
structure Native where
  Val : Type
  MatVal : Type
  parseStatus : String → Int
  parseVal : String → Val
  symbolStatus : String → Int
  symbolVal : String → Val
  intStrStatus : String → Int
  intStrVal : String → Val
  numerVal : Val → Val
  denomVal : Val → Val
  ndStatus : Val → Int
  evalfVal : Val → Nat → Int → Val
  evalfStatus : Val → Nat → Int → Int
  str : Val → String
  newRowsCols : Nat → Nat → MatVal
  setBasic : MatVal → Nat → Nat → Val → MatVal
  setStatus : MatVal → Nat → Nat → Val → Int
  mulVal : MatVal → MatVal → MatVal
  mulStatus : MatVal → MatVal → Int
  detVal : MatVal → Val
  detStatus : MatVal → Int
  matStr : MatVal → String

/-- Outcome of a wrapper call: `Except.error msg` models a Rust panic with
its message (the wrapper API in src/ has no Result channel at all, so a
panic is the only non-ok outcome), `Except.ok` a normal return. -/
abbrev Panics (α : Type u) : Type u := Except String α

/-- Whether a wrapper call returned normally. -/
def isOk {α : Type u} : Panics α → Bool
  | Except.ok _ => true
  | Except.error _ => false

/-- CString::new rejects text with an interior nul byte; U+0000 in the UTF-8
encoding is exactly the one-byte nul. -/
def containsNul (s : String) : Bool := s.toList.any (fun c => c.toNat = 0)

/-- A wrapper Expr: owns one native value. -/
structure Expr (N : Native) where
  val : N.Val

/-- Embedding of Expr::parse (src/symengine.rs lines 59-66): CString::new
panics via expect on an interior nul; the c_int status of basic_parse is
bound to nothing and discarded, and the out-parameter is wrapped
unconditionally. -/
def Expr.parse (N : Native) (s : String) : Panics (Expr N) :=
  if containsNul s then Except.error "expression contains null byte"
  else
    let _status := N.parseStatus s
    Except.ok { val := N.parseVal s }

/-- Embedding of Expr::symbol (lines 69-76): same shape as parse, with
symbol_set. -/
def Expr.symbol (N : Native) (s : String) : Panics (Expr N) :=
  if containsNul s then Except.error "symbol name contains null byte"
  else
    let _status := N.symbolStatus s
    Except.ok { val := N.symbolVal s }

/-- Embedding of Expr::integer_from_str (lines 88-95): same shape, with
integer_set_str. -/
def Expr.integer_from_str (N : Native) (s : String) : Panics (Expr N) :=
  if containsNul s then Except.error "integer string contains null byte"
  else
    let _status := N.intStrStatus s
    Except.ok { val := N.intStrVal s }

/-- Embedding of Expr::numer_denom (lines 286-293): two fresh handles from
basic_as_numer_denom, status discarded. -/
def Expr.numer_denom {N : Native} (e : Expr N) : Expr N × Expr N :=
  let _status := N.ndStatus e.val
  ({ val := N.numerVal e.val }, { val := N.denomVal e.val })

/-- Embedding of Expr::evalf (lines 233-239): basic_evalf with the caller
supplied bit count and the real/complex flag hard-coded to 0, status
discarded. -/
def Expr.evalf {N : Native} (e : Expr N) (bits : Nat) : Expr N :=
  let _status := N.evalfStatus e.val bits 0
  { val := N.evalfVal e.val bits 0 }

/-- Embedding of Expr::to_string (lines 357-364, basic_str). -/
def Expr.toStr {N : Native} (e : Expr N) : String := N.str e.val

/-- A wrapper Matrix: owns one native dense-matrix value. -/
structure Matrix (N : Native) where
  val : N.MatVal

/-- The element loop of Matrix::from_vec: element i is written at row
i / cols, column i % cols. -/
def setAll (N : Native) (cols : Nat) (m : N.MatVal) (vals : List N.Val) : N.MatVal :=
  vals.enum.foldl (fun acc q => N.setBasic acc (q.1 / cols) (q.1 % cols) q.2) m

/-- Embedding of Matrix::from_vec (lines 504-514): dense_matrix_new_rows_cols
then one dense_matrix_set_basic per element at (i / cols, i % cols).  The
u32 divisions panic when cols = 0 and at least one element is processed; the
element count is never compared with rows * cols. -/
def Matrix.from_vec (N : Native) (rows cols : Nat) (elems : List (Expr N)) :
    Panics (Matrix N) :=
  if cols = 0 ∧ elems.isEmpty = false then Except.error "attempt to divide by zero"
  else Except.ok { val := setAll N cols (N.newRowsCols rows cols) (elems.map Expr.val) }

/-- Embedding of Matrix::mul (lines 564-570): dense_matrix_new for the
result buffer, dense_matrix_mul_matrix with the status discarded, and the
buffer wrapped unconditionally.  No dimension check appears anywhere. -/
def Matrix.mul {N : Native} (a b : Matrix N) : Matrix N :=
  let _status := N.mulStatus a.val b.val
  { val := N.mulVal a.val b.val }

/-- Embedding of Matrix::det (lines 532-538): status discarded. -/
def Matrix.det {N : Native} (m : Matrix N) : Expr N :=
  let _status := N.detStatus m.val
  { val := N.detVal m.val }

/-- Embedding of Matrix::to_string (lines 580-587, dense_matrix_str). -/
def Matrix.toStr {N : Native} (m : Matrix N) : String := N.matStr m.val

/-- Rust str::split with a comma separator, over the character list: yields
the (possibly empty) runs between commas, one more piece than there are
commas, so the empty text gives one empty piece. -/
def splitOnComma : List Char → List (List Char)
  | [] => [[]]
  | c :: cs =>
    if c = ',' then [] :: splitOnComma cs
    else
      match splitOnComma cs with
      | [] => [[c]]
      | p :: ps => (c :: p) :: ps

/-- The element preparation shared by all four matrix entry points in
src/lib.rs: split the CSV text on every comma. -/
def splitComma (s : String) : List String :=
  (splitOnComma s.data).map (fun cs => { data := cs })

/-- Rust str::trim over the character list: strip leading and trailing
whitespace (the ASCII whitespace classes; Rust additionally strips the rare
non-ASCII White_Space code points, which no claim depends on). -/
def trimChars (cs : List Char) : List Char :=
  ((cs.dropWhile Char.isWhitespace).reverse.dropWhile Char.isWhitespace).reverse

/-- Rust str::trim on strings. -/
def trimS (s : String) : String := { data := trimChars s.data }

/-- Trim each piece and parse it as an expression
(elements_csv.split(','). map(|s| Expr::parse(s.trim())), lib.rs 362-365). -/
def parseElems (N : Native) (csv : String) : Panics (List (Expr N)) :=
  (splitComma csv).mapM (fun piece => Expr.parse N (trimS piece))

/-- Embedding of the exported matrix_det (lib.rs lines 361-368). -/
def matrix_det (N : Native) (rows cols : Nat) (csv : String) : Panics String := do
  let elems ← parseElems N csv
  let m ← Matrix.from_vec N rows cols elems
  pure (m.det.toStr)

/-- Embedding of the exported matrix_mul (lib.rs lines 373-382): no
dimension comparison between cols_a and rows_b appears. -/
def matrix_mul (N : Native) (rowsA colsA : Nat) (csvA : String)
    (rowsB colsB : Nat) (csvB : String) : Panics String := do
  let ea ← parseElems N csvA
  let eb ← parseElems N csvB
  let ma ← Matrix.from_vec N rowsA colsA ea
  let mb ← Matrix.from_vec N rowsB colsB eb
  pure ((ma.mul mb).toStr)

/-- Embedding of the exported evalf (lib.rs lines 138-140): the bit count is
the literal 53. -/
def evalf (N : Native) (expr : String) : Panics String :=
  (Expr.parse N expr).map (fun e => (e.evalf 53).toStr)

/-- Embedding of the exported numer_denom (lib.rs lines 319-322):
format with the numerator text, a space-pipe-space separator, then the
denominator text. -/
def numer_denom (N : Native) (expr : String) : Panics String :=
  (Expr.parse N expr).map (fun e =>
    let nd := e.numer_denom
    nd.1.toStr ++ " | " ++ nd.2.toStr)

/-- A recording engine: matrix values are the list of (row, column, element)
writes performed on them, so placement can be observed. -/
def recNative (V : Type) (pv : String → V) : Native where
  Val := V
  MatVal := List (Nat × Nat × V)
  parseStatus := fun _ => 0
  parseVal := pv
  symbolStatus := fun _ => 0
  symbolVal := pv
  intStrStatus := fun _ => 0
  intStrVal := pv
  numerVal := fun v => v
  denomVal := fun v => v
  ndStatus := fun _ => 0
  evalfVal := fun v _ _ => v
  evalfStatus := fun _ _ _ => 0
  str := fun _ => ""
  newRowsCols := fun _ _ => []
  setBasic := fun m r c v => m ++ [(r, c, v)]
  setStatus := fun _ _ _ _ => 0
  mulVal := fun a _ => a
  mulStatus := fun _ _ => 0
  detVal := fun _ => pv ""
  detStatus := fun _ => 0
  matStr := fun _ => ""

/-- A concrete engine over Nat values whose every status code reports
failure (1), to observe that the wrapper discards them. -/
def failNative : Native where
  Val := Nat
  MatVal := Nat
  parseStatus := fun _ => 1
  parseVal := fun _ => 0
  symbolStatus := fun _ => 1
  symbolVal := fun _ => 0
  intStrStatus := fun _ => 1
  intStrVal := fun _ => 0
  numerVal := fun v => v
  denomVal := fun v => v + 1
  ndStatus := fun _ => 1
  evalfVal := fun v b r => v + b + r.toNat
  evalfStatus := fun _ _ _ => 1
  str := fun v => toString v
  newRowsCols := fun r c => r * 100 + c
  setBasic := fun m _ _ _ => m
  setStatus := fun _ _ _ _ => 1
  mulVal := fun a b => a + b
  mulStatus := fun _ _ => 1
  detVal := fun m => m
  detStatus := fun _ => 1
  matStr := fun m => toString m

/-- The property claimed by the spec for the three text constructors: every
malformed input (interior nul, or input on which the native call reports a
nonzero status) yields a failure outcome rather than an ok Expr. -/
def constructorsSurfaceFailures (N : Native) : Prop :=
  ∀ s : String,
    ((containsNul s = true ∨ N.parseStatus s ≠ 0) → isOk (Expr.parse N s) = false) ∧
    ((containsNul s = true ∨ N.symbolStatus s ≠ 0) → isOk (Expr.symbol N s) = false) ∧
    ((containsNul s = true ∨ N.intStrStatus s ≠ 0) → isOk (Expr.integer_from_str N s) = false)

/-- The property claimed by the spec for matrix_mul: a column/row mismatch
yields a failure outcome. -/
def matrixMulSurfacesDimFailure (N : Native) : Prop :=
  ∀ (rowsA colsA : Nat) (csvA : String) (rowsB colsB : Nat) (csvB : String),
    colsA ≠ rowsB →
      isOk (matrix_mul N rowsA colsA csvA rowsB colsB csvB) = false

end Wrapper

-- ===========================================================================
-- Theorems: allocator bridge
-- ===========================================================================

namespace AllocBridge

/-- Little-endian usize write/read round-trip. -/
theorem readUsize_writeUsizeBytes (m : Nat → Nat) (a v : Nat) :
    readUsize (writeUsizeBytes m a v) a = v % USZ := by
  have h1 : ¬ (a = a + 1) := by omega
  have h2 : ¬ (a = a + 2) := by omega
  have h3 : ¬ (a = a + 3) := by omega
  have h4 : ¬ (a + 1 = a + 2) := by omega
  have h5 : ¬ (a + 1 = a + 3) := by omega
  have h6 : ¬ (a + 2 = a + 3) := by omega
  simp [readUsize, writeUsizeBytes, writeByte, USZ, h1, h2, h3, h4, h5, h6]
  omega

/-- Bytes outside the four written positions are untouched by a usize write. -/
theorem writeUsizeBytes_ne (m : Nat → Nat) (a v x : Nat)
    (h : x ≠ a ∧ x ≠ a + 1 ∧ x ≠ a + 2 ∧ x ≠ a + 3) :
    writeUsizeBytes m a v x = m x := by
  simp [writeUsizeBytes, writeByte, h.1, h.2.1, h.2.2.1, h.2.2.2]

/-- Symbolic evaluation of malloc on a fresh heap, in the overflow-free range. -/
theorem malloc_eq (m0 : Nat → Nat) (s : Nat) (hs : s ≠ 0) (hlt : s + HEADER < USZ) :
    malloc (emptyHeap m0) s =
      some ({ next := 16 + (s + 16), blocks := [⟨16, s + 16⟩],
              mem := writeUsizeBytes m0 16 s }, 32) := by
  have hm : (s + 16) % USZ = s + 16 := by
    apply Nat.mod_eq_of_lt
    unfold HEADER at hlt
    omega
  have h20 : (16 : Nat) ≤ 16 ∧ 16 + 4 ≤ 16 + (s + 16) := by omega
  simp [malloc, hostAlloc, Heap.storeUsize, Heap.inBounds, emptyHeap, alignUp,
    hs, hm, HEADER, h20]

/-- Releasing the block produced by malloc succeeds: the header round-trips
and the reconstructed layout matches the one the host allocated. -/
theorem free_after_malloc (m0 : Nat → Nat) (s : Nat) (hlt : s + HEADER < USZ) :
    free ({ next := 16 + (s + 16), blocks := [⟨16, s + 16⟩],
            mem := writeUsizeBytes m0 16 s } : Heap) 32 =
      some { next := 16 + (s + 16), blocks := [], mem := writeUsizeBytes m0 16 s } := by
  have hm : (s % USZ + 16) % USZ = s + 16 := by
    unfold HEADER at hlt
    unfold USZ at *
    omega
  have h20 : (16 : Nat) ≤ 16 ∧ 16 + 4 ≤ 16 + (s + 16) := by omega
  simp [free, Heap.loadUsize, Heap.inBounds, hostDealloc, HEADER, h20,
    readUsize_writeUsizeBytes, hm, List.erase]

/-- Resize after allocate stamps the new size into the relocated header. -/
theorem realloc_header (m0 : Nat → Nat) (s1 s2 : Nat) (hs1 : s1 ≠ 0) (hs2 : s2 ≠ 0)
    (hl1 : s1 + HEADER < USZ) (hl2 : s2 + HEADER < USZ) :
    reallocHeaderReports m0 s1 s2 := by
  have hu1 : s1 < USZ := by unfold HEADER at hl1; omega
  have hu2 : s2 < USZ := by unfold HEADER at hl2; omega
  unfold reallocHeaderReports mallocThenRealloc
  rw [malloc_eq m0 s1 hs1 hl1]
  set H1 : Heap := { next := 16 + (s1 + 16), blocks := [⟨16, s1 + 16⟩],
                     mem := writeUsizeBytes m0 16 s1 } with hH1
  have hload : H1.loadUsize 16 = some s1 := by
    have h20 : (16 : Nat) ≤ 16 ∧ 16 + 4 ≤ 16 + (s1 + 16) := by omega
    simp [Heap.loadUsize, Heap.inBounds, hH1, h20, readUsize_writeUsizeBytes,
      Nat.mod_eq_of_lt hu1]
  have hmod1 : (s1 + 16) % USZ = s1 + 16 := Nat.mod_eq_of_lt (by unfold HEADER at hl1; exact hl1)
  have hmod2 : (s2 + 16) % USZ = s2 + 16 := Nat.mod_eq_of_lt (by unfold HEADER at hl2; exact hl2)
  set R := alignUp (16 + (s1 + 16)) with hRdef
  set memC : Nat → Nat := fun x =>
    if R ≤ x ∧ x < R + min (s1 + 16) (s2 + 16) then H1.mem (16 + (x - R)) else H1.mem x
    with hmemC
  have hhr : hostRealloc H1 16 (s1 + 16) (s2 + 16) =
      some ({ next := R + (s2 + 16), blocks := [⟨R, s2 + 16⟩], mem := memC }, R) := by
    simp [hostRealloc, hH1, hs2, List.erase_cons_head, hmemC, hRdef]
  set H2 : Heap := { next := R + (s2 + 16), blocks := [⟨R, s2 + 16⟩], mem := memC } with hH2
  have hst : H2.storeUsize R s2 = some { H2 with mem := writeUsizeBytes memC R s2 } := by
    have hr4 : R ≤ R ∧ R + 4 ≤ R + (s2 + 16) := by omega
    simp [Heap.storeUsize, Heap.inBounds, hH2, hr4]
  have hre : realloc H1 32 s2 =
      some ({ H2 with mem := writeUsizeBytes memC R s2 }, R + 16) := by
    simp only [realloc, if_neg (by omega : ¬ (32 : Nat) = 0), if_neg hs2]
    have h3216 : (32 : Nat) - HEADER = 16 := by unfold HEADER; omega
    rw [h3216, hload]
    simp only [hmod1, hmod2, HEADER]
    simp only [hhr, hst]
  refine ⟨_, _, hre, by omega, ?_⟩
  have hr4 : R ≤ R ∧ R + 4 ≤ R + (s2 + 16) := by omega
  have h16 : R + 16 - HEADER = R := by unfold HEADER; omega
  rw [h16]
  simp [Heap.loadUsize, Heap.inBounds, hr4, readUsize_writeUsizeBytes,
    Nat.mod_eq_of_lt hu2]

/-- C4: the claim as stated is false: at s2 = 0 resize-after-allocate frees
and returns null, so no block carries a header reporting 0; and at
s1 = 2^32 - 15 the usize computation size + HEADER wraps to 1, the host block
is one byte, and the 4-byte header store is out of bounds, so
free(malloc(s1)) is not safe. -/
theorem free_malloc_realloc_header_cex :
    ¬ reallocHeaderReports zeroMem 1 0 ∧
    (mallocThenFree zeroMem (USZ - 15)).isSome = false := by
  constructor
  · rintro ⟨h, p, he, hp, -⟩
    have hv : (mallocThenRealloc zeroMem 1 0).map Prod.snd = some 0 := by rfl
    rw [he] at hv
    simp at hv
    exact hp hv
  · decide

/-- C4 amended: in the overflow-free size range (size + 16 below the 2^31
layout bound) and for a nonzero new size, free(malloc(s1)) is safe and
realloc(malloc(s1), s2) yields a block whose header usize, stored in the 16
bytes immediately preceding the returned pointer, reads exactly s2. -/
theorem free_malloc_safe_and_realloc_header (m0 : Nat → Nat) (s1 s2 : Nat)
    (h1 : s1 + HEADER < 2 ^ 31) (h2 : s2 + HEADER < 2 ^ 31) (hs2 : s2 ≠ 0) :
    (mallocThenFree m0 s1).isSome = true ∧ reallocHeaderReports m0 s1 s2 := by
  have hl1 : s1 + HEADER < USZ := by unfold USZ; omega
  have hl2 : s2 + HEADER < USZ := by unfold USZ; omega
  constructor
  · by_cases hs1 : s1 = 0
    · subst hs1; rfl
    · unfold mallocThenFree
      simp only [malloc_eq m0 s1 hs1 hl1, free_after_malloc m0 s1 hl1, Option.isSome_some]
  · by_cases hs1 : s1 = 0
    · subst hs1
      unfold reallocHeaderReports mallocThenRealloc
      have h00 : malloc (emptyHeap m0) 0 = some (emptyHeap m0, 0) := rfl
      have hre : realloc (emptyHeap m0) 0 s2 = malloc (emptyHeap m0) s2 := rfl
      simp only [h00, hre, malloc_eq m0 s2 hs2 hl2]
      refine ⟨_, _, rfl, by omega, ?_⟩
      have h3216 : (32 : Nat) - HEADER = 16 := by unfold HEADER; omega
      have h20 : (16 : Nat) ≤ 16 ∧ 16 + 4 ≤ 16 + (s2 + 16) := by omega
      rw [h3216]
      simp [Heap.loadUsize, Heap.inBounds, h20, readUsize_writeUsizeBytes,
        Nat.mod_eq_of_lt (show s2 < USZ by unfold HEADER at hl2; omega)]
    · exact realloc_header m0 s1 s2 hs1 hs2 hl1 hl2

/-- C4 witness at s1 = 3, s2 = 7. -/
theorem free_malloc_safe_and_realloc_header_witness :
    (mallocThenFree zeroMem 3).isSome = true ∧ reallocHeaderReports zeroMem 3 7 :=
  free_malloc_safe_and_realloc_header zeroMem 3 7 (by decide) (by decide) (by decide)

/-- Symbolic evaluation of calloc on a fresh heap, in the overflow-free range:
the fresh block is zero-filled before the header is stamped. -/
theorem calloc_eq (m0 : Nat → Nat) (t : Nat) (ht : t ≠ 0) (hlt : t + HEADER < USZ)
    (nmemb size : Nat) (hprod : nmemb * size = t) :
    calloc (emptyHeap m0) nmemb size =
      some ({ next := 16 + (t + 16), blocks := [⟨16, t + 16⟩],
              mem := writeUsizeBytes
                (fun x => if 16 ≤ x ∧ x < 16 + (t + 16) then 0 else m0 x) 16 t }, 32) := by
  have hm : (t + 16) % USZ = t + 16 := Nat.mod_eq_of_lt (by unfold HEADER at hlt; exact hlt)
  have hnb : ¬ USZ ≤ nmemb * size := by rw [hprod]; unfold HEADER at hlt; omega
  have h20 : (16 : Nat) ≤ 16 ∧ 16 + 4 ≤ 16 + (t + 16) := by omega
  subst hprod
  simp [calloc, hostAlloc, Heap.storeUsize, Heap.inBounds, emptyHeap, alignUp,
    ht, hm, HEADER, h20, hnb]

/-- C5: the claim as stated fails at count = 1, size = 2^32 - 15: the checked
multiplication does not overflow and the product is nonzero, yet the ensuing
usize addition product + HEADER wraps to 1, the host block is one byte, and
the 4-byte header store is out of bounds, so no zero-filled block of
count * size bytes is returned. -/
theorem calloc_zero_fill_cex :
    1 * (USZ - 15) ≠ 0 ∧ 1 * (USZ - 15) < USZ ∧
    (calloc (emptyHeap zeroMem) 1 (USZ - 15)).isSome = false := by
  refine ⟨by decide, by decide, by decide⟩

/-- C5 amended: calloc detects multiplication overflow and returns null, and
returns null on a zero product exactly as malloc(0) does; when the product is
nonzero and product + 16 stays below the 2^31 layout bound, it returns a
block whose count * size usable bytes are all zero. -/
theorem calloc_contract (m0 : Nat → Nat) (nmemb size : Nat) :
    (USZ ≤ nmemb * size → calloc (emptyHeap m0) nmemb size = some (emptyHeap m0, 0)) ∧
    (nmemb * size = 0 → calloc (emptyHeap m0) nmemb size = some (emptyHeap m0, 0) ∧
      malloc (emptyHeap m0) 0 = some (emptyHeap m0, 0)) ∧
    (nmemb * size ≠ 0 → nmemb * size + HEADER < 2 ^ 31 →
      ∃ h p, calloc (emptyHeap m0) nmemb size = some (h, p) ∧ p ≠ 0 ∧
        ∀ i, i < nmemb * size → h.mem (p + i) = 0) := by
  refine ⟨fun hov => ?_, fun hz => ?_, fun hnz hsm => ?_⟩
  · simp [calloc, hov]
  · constructor
    · have : ¬ USZ ≤ nmemb * size := by rw [hz]; unfold USZ; omega
      simp [calloc, hz, this]
    · rfl
  · have hlt : nmemb * size + HEADER < USZ := by unfold USZ; omega
    rw [calloc_eq m0 (nmemb * size) hnz hlt nmemb size rfl]
    refine ⟨_, _, rfl, by omega, fun i hi => ?_⟩
    show writeUsizeBytes (fun x => if 16 ≤ x ∧ x < 16 + (nmemb * size + 16) then 0 else m0 x)
      16 (nmemb * size) (32 + i) = 0
    rw [writeUsizeBytes_ne _ 16 (nmemb * size) (32 + i) (by omega)]
    rw [if_pos (by omega)]

/-- C5 witness at count = 3, size = 5. -/
theorem calloc_contract_witness :
    (USZ ≤ 3 * 5 → calloc (emptyHeap zeroMem) 3 5 = some (emptyHeap zeroMem, 0)) ∧
    (3 * 5 = 0 → calloc (emptyHeap zeroMem) 3 5 = some (emptyHeap zeroMem, 0) ∧
      malloc (emptyHeap zeroMem) 0 = some (emptyHeap zeroMem, 0)) ∧
    (3 * 5 ≠ 0 → 3 * 5 + HEADER < 2 ^ 31 →
      ∃ h p, calloc (emptyHeap zeroMem) 3 5 = some (h, p) ∧ p ≠ 0 ∧
        ∀ i, i < 3 * 5 → h.mem (p + i) = 0) :=
  calloc_contract zeroMem 3 5

/-- C6: resize with a null pointer is exactly allocate, and resize to size 0
with a non-null pointer is exactly release followed by returning null. -/
theorem realloc_null_and_zero (h : Heap) (p n : Nat) (hp : p ≠ 0) :
    realloc h 0 n = malloc h n ∧
    realloc h p 0 = (free h p).map (fun h1 => (h1, 0)) := by
  constructor
  · rfl
  · simp only [realloc, if_neg hp, if_pos rfl]
    cases free h p <;> rfl

/-- C6 witness on a concrete heap and pointer. -/
theorem realloc_null_and_zero_witness :
    realloc (emptyHeap zeroMem) 0 5 = malloc (emptyHeap zeroMem) 5 ∧
    realloc (emptyHeap zeroMem) 32 0 =
      (free (emptyHeap zeroMem) 32).map (fun h1 => (h1, 0)) :=
  realloc_null_and_zero (emptyHeap zeroMem) 32 5 (by decide)

end AllocBridge

-- ===========================================================================
-- Theorems: handle lifetime
-- ===========================================================================

namespace Lifetime

theorem alloc_not_mem_map_use (id : Nat) (uses : List Nat) :
    Ev.alloc id ∉ uses.map Ev.use := by
  intro h
  rcases List.mem_map.mp h with ⟨u, -, hu⟩
  cases hu

theorem free_not_mem_map_use (id : Nat) (uses : List Nat) :
    Ev.free id ∉ uses.map Ev.use := by
  intro h
  rcases List.mem_map.mp h with ⟨u, -, hu⟩
  cases hu

theorem use_not_mem_map_free (id : Nat) (l : List Nat) :
    Ev.use id ∉ l.map Ev.free := by
  intro h
  rcases List.mem_map.mp h with ⟨u, -, hu⟩
  cases hu

theorem alloc_not_mem_map_free (id : Nat) (l : List Nat) :
    Ev.alloc id ∉ l.map Ev.free := by
  intro h
  rcases List.mem_map.mp h with ⟨u, -, hu⟩
  cases hu

theorem allocCount_map_use (uses : List Nat) (id : Nat) :
    allocCount (uses.map Ev.use) id = 0 :=
  List.count_eq_zero.mpr (alloc_not_mem_map_use id uses)

theorem freeCount_map_use (uses : List Nat) (id : Nat) :
    freeCount (uses.map Ev.use) id = 0 :=
  List.count_eq_zero.mpr (free_not_mem_map_use id uses)

theorem allocCount_map_free (l : List Nat) (id : Nat) :
    allocCount (l.map Ev.free) id = 0 :=
  List.count_eq_zero.mpr (alloc_not_mem_map_free id l)

theorem freeCount_map_free (l : List Nat) (id : Nat) :
    freeCount (l.map Ev.free) id = l.count id := by
  unfold freeCount
  exact List.count_map_of_injective l Ev.free (fun a b h => by cases h; rfl) id

theorem allocCount_append (t1 t2 : List Ev) (id : Nat) :
    allocCount (t1 ++ t2) id = allocCount t1 id + allocCount t2 id :=
  List.count_append _ _ _

theorem freeCount_append (t1 t2 : List Ev) (id : Nat) :
    freeCount (t1 ++ t2) id = freeCount t1 id + freeCount t2 id :=
  List.count_append _ _ _

/-- A use event never follows a free event across an append when the first
part never frees what the second part uses. -/
theorem nuaf_append (tr new : List Ev) (hold : NoUseAfterFree tr)
    (hnew : NoUseAfterFree new)
    (hcross : ∀ id, Ev.use id ∈ new → freeCount tr id = 0) :
    NoUseAfterFree (tr ++ new) := by
  intro m n id hmn hm hn
  by_cases hnlen : n < tr.length
  · have hmlen : m < tr.length := lt_trans hmn hnlen
    rw [List.get?_append hmlen] at hm
    rw [List.get?_append hnlen] at hn
    exact hold m n id hmn hm hn
  · push_neg at hnlen
    by_cases hmlen : m < tr.length
    · rw [List.get?_append hmlen] at hm
      rw [List.get?_append_right hnlen] at hn
      have huse : Ev.use id ∈ new := List.get?_mem hn
      have h0 := hcross id huse
      have hmem : Ev.free id ∈ tr := List.get?_mem hm
      have hpos : 0 < freeCount tr id := List.count_pos_iff.mpr hmem
      omega
    · push_neg at hmlen
      rw [List.get?_append_right hmlen] at hm
      rw [List.get?_append_right hnlen] at hn
      exact hnew _ _ id (by omega) hm hn

theorem nuaf_of_no_use (l : List Ev) (h : ∀ id, Ev.use id ∉ l) :
    NoUseAfterFree l := by
  intro m n id hmn hm hn
  exact h id (List.get?_mem hn)

theorem nuaf_of_no_free (l : List Ev) (h : ∀ id, Ev.free id ∉ l) :
    NoUseAfterFree l := by
  intro m n id hmn hm hn
  exact h id (List.get?_mem hm)

/-- A list whose only free events sit at the final position never uses after
a free. -/
theorem nuaf_of_free_last (l : List Ev)
    (h : ∀ m id, l.get? m = some (Ev.free id) → l.length ≤ m + 1) :
    NoUseAfterFree l := by
  intro m n id hmn hm hn
  have h1 := h m id hm
  have h2 : n < l.length := by
    rcases List.get?_eq_some.mp hn with ⟨hlt, -⟩
    exact hlt
  omega

/-- In the free_symbols event block the only free is the final event. -/
theorem temp_free_last (uses : List Nat) (t : Nat) :
    ∀ m id, (uses.map Ev.use ++ [Ev.alloc t, Ev.free t]).get? m = some (Ev.free id) →
      (uses.map Ev.use ++ [Ev.alloc t, Ev.free t]).length ≤ m + 1 := by
  intro m id hm
  have hlen : (uses.map Ev.use ++ [Ev.alloc t, Ev.free t]).length = uses.length + 2 := by
    simp
  rw [hlen]
  by_cases h1 : m < uses.length
  · rw [List.get?_append (by simpa using h1)] at hm
    exact absurd (List.get?_mem hm) (free_not_mem_map_use id uses)
  · push_neg at h1
    rw [List.get?_append_right (by simpa using h1)] at hm
    rcases Nat.lt_or_ge (m - uses.length) 2 with h2 | h2
    · rcases Nat.lt_or_ge (m - uses.length) 1 with h3 | h3
      · have he : m - uses.length = 0 := by omega
        rw [List.length_map] at hm
        rw [he] at hm
        cases hm
      · omega
    · rw [List.length_map] at hm
      rw [List.get?_eq_none.mpr (by simp; omega)] at hm
      cases hm

theorem allocCount_block (x : Nat) (uses : List Nat) (id : Nat) :
    allocCount (Ev.alloc x :: uses.map Ev.use) id = if x = id then 1 else 0 := by
  unfold allocCount
  rw [List.count_cons, List.count_eq_zero.mpr (alloc_not_mem_map_use id uses)]
  by_cases h : x = id
  · subst h; simp
  · simp [h, Ne.symm h]

theorem freeCount_block (x : Nat) (uses : List Nat) (id : Nat) :
    freeCount (Ev.alloc x :: uses.map Ev.use) id = 0 := by
  unfold freeCount
  rw [List.count_cons, List.count_eq_zero.mpr (free_not_mem_map_use id uses)]
  simp

theorem allocCount_block2 (x y : Nat) (uses : List Nat) (id : Nat) :
    allocCount (Ev.alloc x :: Ev.alloc y :: uses.map Ev.use) id =
      (if x = id then 1 else 0) + (if y = id then 1 else 0) := by
  unfold allocCount
  rw [List.count_cons, List.count_cons,
    List.count_eq_zero.mpr (alloc_not_mem_map_use id uses)]
  by_cases h1 : x = id <;> by_cases h2 : y = id
  · subst h1; subst h2; simp
  · subst h1; simp [h2, Ne.symm h2]
  · subst h2; simp [h1, Ne.symm h1]
  · simp [h1, Ne.symm h1, h2, Ne.symm h2]

theorem freeCount_block2 (x y : Nat) (uses : List Nat) (id : Nat) :
    freeCount (Ev.alloc x :: Ev.alloc y :: uses.map Ev.use) id = 0 := by
  unfold freeCount
  rw [List.count_cons, List.count_cons,
    List.count_eq_zero.mpr (free_not_mem_map_use id uses)]
  simp

theorem allocCount_temp (uses : List Nat) (t id : Nat) :
    allocCount (uses.map Ev.use ++ [Ev.alloc t, Ev.free t]) id =
      if t = id then 1 else 0 := by
  rw [allocCount_append, allocCount_map_use]
  unfold allocCount
  rw [List.count_cons, List.count_cons, List.count_nil]
  by_cases h : t = id
  · subst h; simp
  · simp [h, Ne.symm h]

theorem freeCount_temp (uses : List Nat) (t id : Nat) :
    freeCount (uses.map Ev.use ++ [Ev.alloc t, Ev.free t]) id =
      if t = id then 1 else 0 := by
  rw [freeCount_append, freeCount_map_use]
  unfold freeCount
  rw [List.count_cons, List.count_cons, List.count_nil]
  by_cases h : t = id
  · subst h; simp
  · simp [h, Ne.symm h]

theorem allocCount_dropEv (x id : Nat) : allocCount [Ev.free x] id = 0 := by
  unfold allocCount
  rw [List.count_cons, List.count_nil]
  simp

theorem freeCount_dropEv (x id : Nat) :
    freeCount [Ev.free x] id = if x = id then 1 else 0 := by
  unfold freeCount
  rw [List.count_cons, List.count_nil]
  by_cases h : x = id
  · subst h; simp
  · simp [h, Ne.symm h]

theorem countP_alloc_block (x : Nat) (uses : List Nat) :
    (Ev.alloc x :: uses.map Ev.use).countP (fun e => isAllocEv e) = 1 := by
  simp [List.countP_cons, List.countP_map, isAllocEv, Function.comp]

theorem countP_free_block (x : Nat) (uses : List Nat) :
    (Ev.alloc x :: uses.map Ev.use).countP (fun e => isFreeEv e) = 0 := by
  simp [List.countP_cons, List.countP_map, isFreeEv, Function.comp]

theorem countP_alloc_block2 (x y : Nat) (uses : List Nat) :
    (Ev.alloc x :: Ev.alloc y :: uses.map Ev.use).countP (fun e => isAllocEv e) = 2 := by
  simp [List.countP_cons, List.countP_map, isAllocEv, Function.comp]

theorem countP_free_block2 (x y : Nat) (uses : List Nat) :
    (Ev.alloc x :: Ev.alloc y :: uses.map Ev.use).countP (fun e => isFreeEv e) = 0 := by
  simp [List.countP_cons, List.countP_map, isFreeEv, Function.comp]

theorem countP_alloc_temp (uses : List Nat) (t : Nat) :
    (uses.map Ev.use ++ [Ev.alloc t, Ev.free t]).countP (fun e => isAllocEv e) = 1 := by
  simp [List.countP_append, List.countP_cons, List.countP_map, isAllocEv, Function.comp]

theorem countP_free_temp (uses : List Nat) (t : Nat) :
    (uses.map Ev.use ++ [Ev.alloc t, Ev.free t]).countP (fun e => isFreeEv e) = 1 := by
  simp [List.countP_append, List.countP_cons, List.countP_map, isFreeEv, Function.comp]

theorem countP_alloc_mapfree (l : List Nat) :
    (l.map Ev.free).countP (fun e => isAllocEv e) = 0 := by
  simp [List.countP_map, isAllocEv, Function.comp]

theorem countP_free_mapfree (l : List Nat) :
    (l.map Ev.free).countP (fun e => isFreeEv e) = l.length := by
  simp [List.countP_map, isFreeEv, Function.comp]

theorem inv_allocStep (st : St) (k : HKind) (uses : List Nat) (inv : Inv st)
    (huses : ∀ u ∈ uses, u ∈ st.live) : Inv (allocStep st k uses) := by
  constructor
  case live_lt =>
    intro id hid
    simp only [allocStep] at hid ⊢
    rcases List.mem_append.mp hid with h | h
    · exact lt_trans (inv.live_lt id h) (Nat.lt_succ_self _)
    · simp only [List.mem_singleton] at h
      omega
  case live_nodup =>
    rw [show (allocStep st k uses).live = st.live ++ [st.next] from rfl, List.nodup_append]
    refine ⟨inv.live_nodup, List.nodup_singleton _, ?_⟩
    rw [List.disjoint_singleton]
    intro hmem
    have := inv.live_lt _ hmem
    omega
  case alloc_le_one =>
    intro id
    rw [show (allocStep st k uses).trace = st.trace ++ (Ev.alloc st.next :: uses.map Ev.use)
      from rfl, allocCount_append, allocCount_block]
    by_cases h : st.next = id
    · subst h
      rw [inv.alloc_fresh st.next le_rfl]
      simp
    · rw [if_neg h]
      have := inv.alloc_le_one id
      omega
  case alloc_fresh =>
    intro id hid
    simp only [allocStep] at hid ⊢
    rw [allocCount_append, allocCount_block, inv.alloc_fresh id (by omega),
      if_neg (by omega)]
  case free_fresh =>
    intro id hid
    simp only [allocStep] at hid ⊢
    rw [freeCount_append, freeCount_block, inv.free_fresh id (by omega)]
  case live_alloc =>
    intro id hid
    simp only [allocStep] at hid ⊢
    rw [allocCount_append, allocCount_block]
    rcases List.mem_append.mp hid with h | h
    · have := inv.live_lt id h
      rw [inv.live_alloc id h, if_neg (by omega)]
    · simp only [List.mem_singleton] at h
      subst h
      rw [inv.alloc_fresh st.next le_rfl, if_pos rfl]
  case live_nofree =>
    intro id hid
    simp only [allocStep] at hid ⊢
    rw [freeCount_append, freeCount_block]
    rcases List.mem_append.mp hid with h | h
    · rw [inv.live_nofree id h]
    · simp only [List.mem_singleton] at h
      subst h
      rw [inv.free_fresh st.next le_rfl]
  case dead_balanced =>
    intro id hid
    simp only [allocStep, List.mem_append, List.mem_singleton] at hid ⊢
    push_neg at hid
    rw [freeCount_append, freeCount_block, allocCount_append, allocCount_block,
      if_neg (fun h => hid.2 h.symm), inv.dead_balanced id hid.1]
  case nuaf =>
    apply nuaf_append _ _ inv.nuaf
    · apply nuaf_of_no_free
      intro id h
      rcases List.mem_cons.mp h with h | h
      · cases h
      · exact free_not_mem_map_use id uses h
    · intro id h
      rcases List.mem_cons.mp h with h | h
      · cases h
      · rcases List.mem_map.mp h with ⟨u, hu, he⟩
        have heq : u = id := by injection he
        subst heq
        exact inv.live_nofree _ (huses _ hu)
  case total =>
    simp only [allocStep]
    rw [List.countP_append, List.countP_append, countP_alloc_block, countP_free_block,
      List.length_append]
    have := inv.total
    simp only [List.length_singleton]
    omega

theorem inv_allocStep2 (st : St) (uses : List Nat) (inv : Inv st)
    (huses : ∀ u ∈ uses, u ∈ st.live) : Inv (allocStep2 st uses) := by
  constructor
  case live_lt =>
    intro id hid
    simp only [allocStep2] at hid ⊢
    rcases List.mem_append.mp hid with h | h
    · have := inv.live_lt id h
      omega
    · simp only [List.mem_cons, List.not_mem_nil, or_false] at h
      omega
  case live_nodup =>
    rw [show (allocStep2 st uses).live = st.live ++ [st.next, st.next + 1] from rfl,
      List.nodup_append]
    refine ⟨inv.live_nodup, ?_, ?_⟩
    · simp
    · intro x hx hy
      simp only [List.mem_cons, List.not_mem_nil, or_false] at hy
      have := inv.live_lt x hx
      omega
  case alloc_le_one =>
    intro id
    rw [show (allocStep2 st uses).trace = st.trace ++
      (Ev.alloc st.next :: Ev.alloc (st.next + 1) :: uses.map Ev.use) from rfl,
      allocCount_append, allocCount_block2]
    by_cases h1 : st.next = id
    · subst h1
      rw [inv.alloc_fresh st.next le_rfl, if_pos rfl, if_neg (by omega)]
    · by_cases h2 : st.next + 1 = id
      · subst h2
        rw [inv.alloc_fresh (st.next + 1) (by omega), if_neg h1, if_pos rfl]
      · rw [if_neg h1, if_neg h2]
        have := inv.alloc_le_one id
        omega
  case alloc_fresh =>
    intro id hid
    simp only [allocStep2] at hid ⊢
    rw [allocCount_append, allocCount_block2, inv.alloc_fresh id (by omega),
      if_neg (by omega), if_neg (by omega)]
  case free_fresh =>
    intro id hid
    simp only [allocStep2] at hid ⊢
    rw [freeCount_append, freeCount_block2, inv.free_fresh id (by omega)]
  case live_alloc =>
    intro id hid
    simp only [allocStep2] at hid ⊢
    rw [allocCount_append, allocCount_block2]
    rcases List.mem_append.mp hid with h | h
    · have := inv.live_lt id h
      rw [inv.live_alloc id h, if_neg (by omega), if_neg (by omega)]
    · simp only [List.mem_cons, List.not_mem_nil, or_false] at h
      rcases h with h | h
      · subst h
        rw [inv.alloc_fresh st.next le_rfl, if_pos rfl, if_neg (by omega)]
      · subst h
        rw [inv.alloc_fresh (st.next + 1) (by omega), if_neg (by omega), if_pos rfl]
  case live_nofree =>
    intro id hid
    simp only [allocStep2] at hid ⊢
    rw [freeCount_append, freeCount_block2]
    rcases List.mem_append.mp hid with h | h
    · rw [inv.live_nofree id h]
    · simp only [List.mem_cons, List.not_mem_nil, or_false] at h
      rcases h with h | h <;> subst h
      · rw [inv.free_fresh st.next le_rfl]
      · rw [inv.free_fresh (st.next + 1) (by omega)]
  case dead_balanced =>
    intro id hid
    simp only [allocStep2, List.mem_append, List.mem_cons, List.not_mem_nil, or_false] at hid ⊢
    push_neg at hid
    rw [freeCount_append, freeCount_block2, allocCount_append, allocCount_block2,
      if_neg (fun h => hid.2.1 h.symm), if_neg (fun h => hid.2.2 h.symm),
      inv.dead_balanced id hid.1]
  case nuaf =>
    apply nuaf_append _ _ inv.nuaf
    · apply nuaf_of_no_free
      intro id h
      rcases List.mem_cons.mp h with h | h
      · cases h
      rcases List.mem_cons.mp h with h | h
      · cases h
      exact free_not_mem_map_use id uses h
    · intro id h
      rcases List.mem_cons.mp h with h | h
      · cases h
      rcases List.mem_cons.mp h with h | h
      · cases h
      rcases List.mem_map.mp h with ⟨u, hu, he⟩
      have heq : u = id := by injection he
      subst heq
      exact inv.live_nofree _ (huses _ hu)
  case total =>
    simp only [allocStep2]
    rw [List.countP_append, List.countP_append, countP_alloc_block2, countP_free_block2,
      List.length_append]
    have := inv.total
    simp only [List.length_cons, List.length_nil]
    omega

theorem inv_tempStep (st : St) (uses : List Nat) (inv : Inv st)
    (huses : ∀ u ∈ uses, u ∈ st.live) : Inv (tempStep st uses) := by
  constructor
  case live_lt =>
    intro id hid
    simp only [tempStep] at hid ⊢
    have := inv.live_lt id hid
    omega
  case live_nodup => exact inv.live_nodup
  case alloc_le_one =>
    intro id
    rw [show (tempStep st uses).trace = st.trace ++
      (uses.map Ev.use ++ [Ev.alloc st.next, Ev.free st.next]) from rfl,
      allocCount_append, allocCount_temp]
    by_cases h : st.next = id
    · subst h
      rw [inv.alloc_fresh st.next le_rfl, if_pos rfl]
    · rw [if_neg h]
      have := inv.alloc_le_one id
      omega
  case alloc_fresh =>
    intro id hid
    simp only [tempStep] at hid ⊢
    rw [allocCount_append, allocCount_temp, inv.alloc_fresh id (by omega),
      if_neg (by omega)]
  case free_fresh =>
    intro id hid
    simp only [tempStep] at hid ⊢
    rw [freeCount_append, freeCount_temp, inv.free_fresh id (by omega),
      if_neg (by omega)]
  case live_alloc =>
    intro id hid
    simp only [tempStep] at hid ⊢
    have := inv.live_lt id hid
    rw [allocCount_append, allocCount_temp, inv.live_alloc id hid, if_neg (by omega)]
  case live_nofree =>
    intro id hid
    simp only [tempStep] at hid ⊢
    have := inv.live_lt id hid
    rw [freeCount_append, freeCount_temp, inv.live_nofree id hid, if_neg (by omega)]
  case dead_balanced =>
    intro id hid
    simp only [tempStep] at hid ⊢
    rw [freeCount_append, freeCount_temp, allocCount_append, allocCount_temp,
      inv.dead_balanced id hid]
  case nuaf =>
    apply nuaf_append _ _ inv.nuaf
    · exact nuaf_of_free_last _ (temp_free_last uses st.next)
    · intro id h
      rcases List.mem_append.mp h with h | h
      · rcases List.mem_map.mp h with ⟨u, hu, he⟩
        have heq : u = id := by injection he
        subst heq
        exact inv.live_nofree _ (huses _ hu)
      · simp only [List.mem_cons, List.not_mem_nil, or_false] at h
        rcases h with h | h
        · cases h
        · cases h
  case total =>
    simp only [tempStep]
    rw [List.countP_append, countP_free_temp, List.countP_append, countP_alloc_temp]
    have := inv.total
    omega

theorem inv_dropStep (st : St) (id : Nat) (inv : Inv st) (hmem : id ∈ st.live) :
    Inv (dropStep st id) := by
  constructor
  case live_lt =>
    intro x hx
    simp only [dropStep] at hx ⊢
    exact inv.live_lt x (List.erase_subset _ _ hx)
  case live_nodup => exact inv.live_nodup.erase id
  case alloc_le_one =>
    intro x
    rw [show (dropStep st id).trace = st.trace ++ [Ev.free id] from rfl,
      allocCount_append, allocCount_dropEv]
    have := inv.alloc_le_one x
    omega
  case alloc_fresh =>
    intro x hx
    simp only [dropStep] at hx ⊢
    rw [allocCount_append, allocCount_dropEv, inv.alloc_fresh x hx]
  case free_fresh =>
    intro x hx
    simp only [dropStep] at hx ⊢
    have hidlt := inv.live_lt id hmem
    rw [freeCount_append, freeCount_dropEv, inv.free_fresh x hx, if_neg (by omega)]
  case live_alloc =>
    intro x hx
    simp only [dropStep] at hx ⊢
    rw [allocCount_append, allocCount_dropEv, inv.live_alloc x (List.erase_subset _ _ hx)]
  case live_nofree =>
    intro x hx
    simp only [dropStep] at hx ⊢
    have hxne : x ≠ id := ((inv.live_nodup.mem_erase_iff).mp hx).1
    rw [freeCount_append, freeCount_dropEv, inv.live_nofree x (List.erase_subset _ _ hx),
      if_neg (fun h => hxne h.symm)]
  case dead_balanced =>
    intro x hx
    simp only [dropStep] at hx ⊢
    rw [freeCount_append, freeCount_dropEv, allocCount_append, allocCount_dropEv]
    by_cases hxid : x = id
    · subst hxid
      rw [if_pos rfl, inv.live_nofree x hmem, inv.live_alloc x hmem]
    · have hxlive : x ∉ st.live := by
        intro hc
        exact hx ((inv.live_nodup.mem_erase_iff).mpr ⟨hxid, hc⟩)
      rw [if_neg (fun h => hxid h.symm), inv.dead_balanced x hxlive]
  case nuaf =>
    apply nuaf_append _ _ inv.nuaf
    · apply nuaf_of_no_use
      intro x h
      simp only [List.mem_singleton] at h
      cases h
    · intro x h
      simp only [List.mem_singleton] at h
      cases h
  case total =>
    simp only [dropStep]
    rw [List.countP_append, List.countP_append]
    have h1 : ([Ev.free id].countP fun e => isFreeEv e) = 1 := by
      simp [List.countP_cons, isFreeEv]
    have h2 : ([Ev.free id].countP fun e => isAllocEv e) = 0 := by
      simp [List.countP_cons, isAllocEv]
    rw [h1, h2, List.length_erase_of_mem hmem]
    have := inv.total
    have hlen : 1 ≤ st.live.length := List.length_pos.mpr (List.ne_nil_of_mem hmem)
    omega

theorem mem_of_isLive (st : St) (id : Nat) (k : HKind) (h : st.isLive id k = true) :
    id ∈ st.live := by
  unfold St.isLive at h
  rw [Bool.and_eq_true] at h
  simpa using h.1

/-- Any reachable successor state keeps the invariant. -/
theorem step_inv (st : St) (op : Op) (st' : St) (inv : Inv st)
    (h : st.step op = some st') : Inv st' := by
  cases op with
  | construct =>
    simp only [St.step, Option.some.injEq] at h
    subst h
    exact inv_allocStep st _ [] inv (fun u hu => by cases hu)
  | unary id =>
    simp only [St.step] at h
    split at h
    · simp only [Option.some.injEq] at h
      subst h
      refine inv_allocStep st _ [id] inv (fun u hu => ?_)
      simp only [List.mem_singleton] at hu
      subst hu
      exact mem_of_isLive st u _ (by assumption)
    · cases h
  | binary a b =>
    simp only [St.step] at h
    split at h
    next hc =>
      simp only [Option.some.injEq] at h
      subst h
      refine inv_allocStep st _ [a, b] inv (fun u hu => ?_)
      simp only [List.mem_cons, List.not_mem_nil, or_false] at hu
      rcases hu with hu | hu <;> subst hu
      · exact mem_of_isLive st _ _ hc.1
      · exact mem_of_isLive st _ _ hc.2
    next => cases h
  | cloneE id =>
    simp only [St.step] at h
    split at h
    · simp only [Option.some.injEq] at h
      subst h
      refine inv_allocStep st _ [id] inv (fun u hu => ?_)
      simp only [List.mem_singleton] at hu
      subst hu
      exact mem_of_isLive st u _ (by assumption)
    · cases h
  | numerDenom id =>
    simp only [St.step] at h
    split at h
    · simp only [Option.some.injEq] at h
      subst h
      refine inv_allocStep2 st [id] inv (fun u hu => ?_)
      simp only [List.mem_singleton] at hu
      subst hu
      exact mem_of_isLive st u _ (by assumption)
    · cases h
  | freeSymbols id =>
    simp only [St.step] at h
    split at h
    · simp only [Option.some.injEq] at h
      subst h
      refine inv_tempStep st [id] inv (fun u hu => ?_)
      simp only [List.mem_singleton] at hu
      subst hu
      exact mem_of_isLive st u _ (by assumption)
    · cases h
  | dropH id =>
    simp only [St.step] at h
    split at h
    next hc =>
      simp only [Option.some.injEq] at h
      subst h
      exact inv_dropStep st id inv (by simpa using hc)
    next => cases h
  | matrixFromVec rows cols elems =>
    simp only [St.step] at h
    split at h
    · cases h
    split at h
    next hall =>
      simp only [Option.some.injEq] at h
      subst h
      refine inv_allocStep st _ elems inv (fun u hu => ?_)
      exact mem_of_isLive st u _ (List.all_eq_true.mp hall u hu)
    next => cases h
  | matrixDet id =>
    simp only [St.step] at h
    split at h
    · simp only [Option.some.injEq] at h
      subst h
      refine inv_allocStep st _ [id] inv (fun u hu => ?_)
      simp only [List.mem_singleton] at hu
      subst hu
      exact mem_of_isLive st u _ (by assumption)
    · cases h
  | matrixUnary id =>
    simp only [St.step] at h
    split at h
    · simp only [Option.some.injEq] at h
      subst h
      refine inv_allocStep st _ [id] inv (fun u hu => ?_)
      simp only [List.mem_singleton] at hu
      subst hu
      exact mem_of_isLive st u _ (by assumption)
    · cases h
  | matrixBinary a b =>
    simp only [St.step] at h
    split at h
    next hc =>
      simp only [Option.some.injEq] at h
      subst h
      refine inv_allocStep st _ [a, b] inv (fun u hu => ?_)
      simp only [List.mem_cons, List.not_mem_nil, or_false] at hu
      rcases hu with hu | hu <;> subst hu
      · exact mem_of_isLive st _ _ hc.1
      · exact mem_of_isLive st _ _ hc.2
    next => cases h

/-- The invariant holds along every successful run. -/
theorem run_inv : ∀ (ops : List Op) (st st' : St), Inv st → run st ops = some st' →
    Inv st'
  | [], _, _, inv, h => by
    simp only [run, Option.some.injEq] at h
    subst h
    exact inv
  | op :: ops, st, st', inv, h => by
    simp only [run] at h
    cases hs : st.step op with
    | none => rw [hs] at h; cases h
    | some st1 =>
      rw [hs] at h
      exact run_inv ops st1 st' (step_inv st op st1 inv hs) h

/-- The empty state satisfies the invariant. -/
theorem inv_st0 : Inv st0 := by
  constructor
  case live_lt => intro id hid; cases hid
  case live_nodup => exact List.nodup_nil
  case alloc_le_one => intro id; simp [st0, allocCount]
  case alloc_fresh => intro id _; simp [st0, allocCount]
  case free_fresh => intro id _; simp [st0, freeCount]
  case live_alloc => intro id hid; cases hid
  case live_nofree => intro id hid; cases hid
  case dead_balanced => intro id _; simp [st0, allocCount, freeCount]
  case nuaf => intro m n id _ hm _; cases m <;> cases hm
  case total => simp [st0]

theorem countP_alloc_allocStep (st : St) (k : HKind) (uses : List Nat) :
    (allocStep st k uses).trace.countP (fun e => isAllocEv e) =
      st.trace.countP (fun e => isAllocEv e) + 1 := by
  simp only [allocStep]
  rw [List.countP_append, countP_alloc_block]

theorem countP_alloc_allocStep2 (st : St) (uses : List Nat) :
    (allocStep2 st uses).trace.countP (fun e => isAllocEv e) =
      st.trace.countP (fun e => isAllocEv e) + 2 := by
  simp only [allocStep2]
  rw [List.countP_append, countP_alloc_block2]

theorem countP_alloc_tempStep (st : St) (uses : List Nat) :
    (tempStep st uses).trace.countP (fun e => isAllocEv e) =
      st.trace.countP (fun e => isAllocEv e) + 1 := by
  simp only [tempStep]
  rw [List.countP_append, countP_alloc_temp]

theorem countP_alloc_dropStep (st : St) (id : Nat) :
    (dropStep st id).trace.countP (fun e => isAllocEv e) =
      st.trace.countP (fun e => isAllocEv e) := by
  simp only [dropStep]
  rw [List.countP_append]
  simp [List.countP_cons, isAllocEv]

/-- Each step adds exactly the number of allocations its operation performs. -/
theorem step_allocCountP (st : St) (op : Op) (st' : St) (h : st.step op = some st') :
    st'.trace.countP (fun e => isAllocEv e) =
      st.trace.countP (fun e => isAllocEv e) + op.allocs := by
  cases op <;> simp only [St.step] at h
  case construct =>
    simp only [Option.some.injEq] at h
    subst h
    exact countP_alloc_allocStep st _ []
  case unary id =>
    split at h
    · simp only [Option.some.injEq] at h
      subst h
      exact countP_alloc_allocStep st _ [id]
    · cases h
  case binary a b =>
    split at h
    · simp only [Option.some.injEq] at h
      subst h
      exact countP_alloc_allocStep st _ [a, b]
    · cases h
  case cloneE id =>
    split at h
    · simp only [Option.some.injEq] at h
      subst h
      exact countP_alloc_allocStep st _ [id]
    · cases h
  case numerDenom id =>
    split at h
    · simp only [Option.some.injEq] at h
      subst h
      exact countP_alloc_allocStep2 st [id]
    · cases h
  case freeSymbols id =>
    split at h
    · simp only [Option.some.injEq] at h
      subst h
      exact countP_alloc_tempStep st [id]
    · cases h
  case dropH id =>
    split at h
    · simp only [Option.some.injEq] at h
      subst h
      exact countP_alloc_dropStep st id
    · cases h
  case matrixFromVec rows cols elems =>
    split at h
    · cases h
    split at h
    · simp only [Option.some.injEq] at h
      subst h
      exact countP_alloc_allocStep st _ elems
    · cases h
  case matrixDet id =>
    split at h
    · simp only [Option.some.injEq] at h
      subst h
      exact countP_alloc_allocStep st _ [id]
    · cases h
  case matrixUnary id =>
    split at h
    · simp only [Option.some.injEq] at h
      subst h
      exact countP_alloc_allocStep st _ [id]
    · cases h
  case matrixBinary a b =>
    split at h
    · simp only [Option.some.injEq] at h
      subst h
      exact countP_alloc_allocStep st _ [a, b]
    · cases h

/-- Along a run, the allocation events are exactly the per-operation sums. -/
theorem run_allocSum : ∀ (ops : List Op) (st st' : St), run st ops = some st' →
    st'.trace.countP (fun e => isAllocEv e) =
      st.trace.countP (fun e => isAllocEv e) + (ops.map Op.allocs).sum
  | [], st, st', h => by
    simp only [run, Option.some.injEq] at h
    subst h
    simp
  | op :: ops, st, st', h => by
    simp only [run] at h
    cases hs : st.step op with
    | none => rw [hs] at h; cases h
    | some st1 =>
      rw [hs] at h
      rw [run_allocSum ops st1 st' h, step_allocCountP st op st1 hs]
      simp only [List.map_cons, List.sum_cons]
      omega

/-- The trace after scope exit: every object allocated at most once, released
exactly as often as allocated, never used after release, no extra releases. -/
theorem scopeExit_props (st : St) (inv : Inv st) :
    (∀ id, allocCount (scopeExit st).trace id ≤ 1) ∧
    (∀ id, freeCount (scopeExit st).trace id = allocCount (scopeExit st).trace id) ∧
    NoUseAfterFree (scopeExit st).trace ∧
    (scopeExit st).trace.countP (fun e => isAllocEv e) =
      st.trace.countP (fun e => isAllocEv e) ∧
    (scopeExit st).trace.countP (fun e => isFreeEv e) =
      st.trace.countP (fun e => isAllocEv e) := by
  have htr : (scopeExit st).trace = st.trace ++ st.live.reverse.map Ev.free := rfl
  refine ⟨?_, ?_, ?_, ?_, ?_⟩
  · intro id
    rw [htr, allocCount_append, allocCount_map_free]
    have := inv.alloc_le_one id
    omega
  · intro id
    rw [htr, freeCount_append, freeCount_map_free, allocCount_append,
      allocCount_map_free, List.count_reverse]
    by_cases h : id ∈ st.live
    · rw [inv.live_nofree id h, inv.live_alloc id h,
        List.count_eq_one_of_mem inv.live_nodup h]
    · rw [inv.dead_balanced id h, List.count_eq_zero.mpr h]
  · rw [htr]
    apply nuaf_append _ _ inv.nuaf
    · exact nuaf_of_no_use _ (fun id => use_not_mem_map_free id _)
    · intro id h
      exact absurd h (use_not_mem_map_free id _)
  · rw [htr, List.countP_append, countP_alloc_mapfree]
    omega
  · rw [htr, List.countP_append, countP_free_mapfree, List.length_reverse]
    have := inv.total
    omega

/-- C1: for every sequence of wrapper constructions, transformations and
drops that runs to completion, followed by scope exit, every Expr- or
Matrix-owned native object is allocated at most once and released exactly as
many times as it is allocated (so none is released twice and none leaks), no
object is read after its release, and the total numbers of allocations and of
releases both equal the sum of allocations performed by the operations: N
constructions and transformations allocate exactly N objects (two for
numer_denom, one otherwise) and release exactly N. -/
theorem handle_alloc_release_balance (ops : List Op) (st : St)
    (h : run st0 ops = some st) :
    (∀ id, allocCount (scopeExit st).trace id ≤ 1) ∧
    (∀ id, freeCount (scopeExit st).trace id = allocCount (scopeExit st).trace id) ∧
    NoUseAfterFree (scopeExit st).trace ∧
    (scopeExit st).trace.countP (fun e => isAllocEv e) = (ops.map Op.allocs).sum ∧
    (scopeExit st).trace.countP (fun e => isFreeEv e) = (ops.map Op.allocs).sum := by
  have inv := run_inv ops st0 st inv_st0 h
  obtain ⟨p1, p2, p3, p4, p5⟩ := scopeExit_props st inv
  have hsum := run_allocSum ops st0 st h
  have h0 : st0.trace.countP (fun e => isAllocEv e) = 0 := rfl
  rw [h0] at hsum
  refine ⟨p1, p2, p3, ?_, ?_⟩
  · rw [p4, hsum]
    omega
  · rw [p5, hsum]
    omega


/-- C1 witness: the balance theorem applied to the concrete program. -/
theorem handle_alloc_release_balance_witness :
    (∀ id, allocCount (scopeExit stW).trace id ≤ 1) ∧
    (∀ id, freeCount (scopeExit stW).trace id = allocCount (scopeExit stW).trace id) ∧
    NoUseAfterFree (scopeExit stW).trace ∧
    (scopeExit stW).trace.countP (fun e => isAllocEv e) = (opsW.map Op.allocs).sum ∧
    (scopeExit stW).trace.countP (fun e => isFreeEv e) = (opsW.map Op.allocs).sum :=
  handle_alloc_release_balance opsW stW (by decide)

end Lifetime

-- ===========================================================================
-- Theorems: safe wrapper and exported entry points
-- ===========================================================================

namespace Wrapper

/-- C2: the claim as stated is false.  The concrete engine failNative reports
parse status 1 (failure) on the nul-free input "(", yet Expr::parse returns
an ok Expr wrapping whatever the native call wrote: the status is discarded
and no failure outcome is surfaced. -/
theorem construct_failure_cex : ¬ constructorsSurfaceFailures failNative := by
  intro h
  have h1 := (h "(").1 (Or.inr (by decide))
  have h2 : isOk (Expr.parse failNative "(") = true := by decide
  rw [h1] at h2
  cases h2

/-- C2 amended: input with an interior nul makes parse, symbol and
integer_from_str panic in CString::new (a failure distinct from returning a
handle); on every nul-free input, whatever status the native parser reports,
each constructor discards the status and returns an ok Expr wrapping the
value the native call wrote. -/
theorem construct_failure_behavior (N : Native) (s : String) :
    (containsNul s = true →
      Expr.parse N s = Except.error "expression contains null byte" ∧
      Expr.symbol N s = Except.error "symbol name contains null byte" ∧
      Expr.integer_from_str N s = Except.error "integer string contains null byte") ∧
    (containsNul s = false →
      Expr.parse N s = Except.ok { val := N.parseVal s } ∧
      Expr.symbol N s = Except.ok { val := N.symbolVal s } ∧
      Expr.integer_from_str N s = Except.ok { val := N.intStrVal s }) := by
  constructor <;> intro h <;>
    exact ⟨by simp [Expr.parse, h], by simp [Expr.symbol, h],
      by simp [Expr.integer_from_str, h]⟩

/-- C2 witness: the nul input panics, the nul-free input "(" returns ok even
though failNative reports a failing status on it. -/
theorem construct_failure_behavior_witness :
    Expr.parse failNative "\x00" = Except.error "expression contains null byte" ∧
    Expr.parse failNative "(" = Except.ok { val := failNative.parseVal "(" } :=
  ⟨((construct_failure_behavior failNative "\x00").1 (by decide)).1,
   ((construct_failure_behavior failNative "(").2 (by decide)).1⟩

theorem mapM_parse_ok (N : Native) (ps : List String)
    (h : ps.all (fun p => !containsNul (trimS p)) = true) :
    ps.mapM (fun piece => Expr.parse N (trimS piece)) =
      Except.ok (ps.map (fun p => ({ val := N.parseVal (trimS p) } : Expr N))) := by
  induction ps with
  | nil => rfl
  | cons p ps ih =>
    rw [List.all_cons, Bool.and_eq_true] at h
    have hp : containsNul (trimS p) = false := by
      have := h.1
      simpa using this
    rw [List.mapM_cons, ih h.2]
    simp [Expr.parse, hp, Bind.bind, Except.bind, pure, Except.pure]

/-- All matrix entry points prepare elements this way (lib.rs): split on
commas, trim, parse each piece. -/
theorem parseElems_ok (N : Native) (csv : String)
    (h : (splitComma csv).all (fun p => !containsNul (trimS p)) = true) :
    parseElems N csv =
      Except.ok ((splitComma csv).map
        (fun p => ({ val := N.parseVal (trimS p) } : Expr N))) :=
  mapM_parse_ok N (splitComma csv) h

/-- C3: the claim as stated is false.  With cols_a = 2 and rows_b = 1 (a
dimension mismatch) and a native engine whose multiply reports status 1,
matrix_mul still returns an ok string: no failure outcome is surfaced. -/
theorem matrix_mul_dim_mismatch_cex : ¬ matrixMulSurfacesDimFailure failNative := by
  intro h
  have h1 := h 1 2 "a, b" 1 2 "c, d" (by decide)
  have h2 : isOk (matrix_mul failNative 1 2 "a, b" 1 2 "c, d") = true := by decide
  rw [h1] at h2
  cases h2

/-- C3 amended: neither matrix_mul nor Matrix::mul compares cols_a with
rows_b; whenever both CSV inputs parse without panicking and both column
counts are nonzero, matrix_mul returns the stringified native result buffer
as an ok value, whatever the dimensions and whatever status
dense_matrix_mul_matrix reports. -/
theorem matrix_mul_no_dim_check (N : Native) (rowsA colsA : Nat) (csvA : String)
    (rowsB colsB : Nat) (csvB : String)
    (hA : colsA ≠ 0) (hB : colsB ≠ 0)
    (hnA : (splitComma csvA).all (fun p => !containsNul (trimS p)) = true)
    (hnB : (splitComma csvB).all (fun p => !containsNul (trimS p)) = true) :
    matrix_mul N rowsA colsA csvA rowsB colsB csvB =
      Except.ok (N.matStr (N.mulVal
        (setAll N colsA (N.newRowsCols rowsA colsA)
          ((splitComma csvA).map (fun p => N.parseVal (trimS p))))
        (setAll N colsB (N.newRowsCols rowsB colsB)
          ((splitComma csvB).map (fun p => N.parseVal (trimS p)))))) := by
  unfold matrix_mul
  rw [parseElems_ok N csvA hnA, parseElems_ok N csvB hnB]
  have hA2 : ¬ (colsA = 0 ∧ (List.map (fun p => ({ val := N.parseVal (trimS p) } : Expr N))
      (splitComma csvA)).isEmpty = false) := fun hc => hA hc.1
  have hB2 : ¬ (colsB = 0 ∧ (List.map (fun p => ({ val := N.parseVal (trimS p) } : Expr N))
      (splitComma csvB)).isEmpty = false) := fun hc => hB hc.1
  simp only [Matrix.from_vec, if_neg hA2, if_neg hB2, Bind.bind, Except.bind,
    Matrix.mul, Matrix.toStr, pure, Except.pure]
  rw [List.map_map, List.map_map]
  rfl

/-- C3 witness: concrete mismatched dimensions (cols_a = 2, rows_b = 1). -/
theorem matrix_mul_no_dim_check_witness :
    matrix_mul failNative 1 2 "a, b" 1 2 "c, d" =
      Except.ok (failNative.matStr (failNative.mulVal
        (setAll failNative 2 (failNative.newRowsCols 1 2)
          ((splitComma "a, b").map (fun p => failNative.parseVal (trimS p))))
        (setAll failNative 2 (failNative.newRowsCols 1 2)
          ((splitComma "c, d").map (fun p => failNative.parseVal (trimS p)))))) :=
  matrix_mul_no_dim_check failNative 1 2 "a, b" 1 2 "c, d"
    (by decide) (by decide) (by decide) (by decide)

theorem setAll_rec_aux (V : Type) (pv : String → V) (cols : Nat) :
    ∀ (vals : List V) (n : Nat) (start : List (Nat × Nat × V)),
      (vals.enumFrom n).foldl
        (fun acc q => (recNative V pv).setBasic acc (q.1 / cols) (q.1 % cols) q.2)
          start =
        start ++ (vals.enumFrom n).map (fun q => (q.1 / cols, q.1 % cols, q.2))
  | [], n, start => by simp [List.enumFrom_nil]
  | v :: vals, n, start => by
    rw [List.enumFrom_cons]
    simp only [List.foldl_cons, List.map_cons]
    rw [setAll_rec_aux V pv cols vals (n + 1) _]
    show start ++ [(n / cols, n % cols, v)] ++ _ = _
    rw [List.append_assoc]
    rfl

/-- On the recording engine the element loop of from_vec appends exactly one
write per element, the i-th at (i / cols, i % cols). -/
theorem setAll_rec (V : Type) (pv : String → V) (cols : Nat) (vals : List V)
    (start : List (Nat × Nat × V)) :
    setAll (recNative V pv) cols start vals =
      start ++ vals.enum.map (fun q => (q.1 / cols, q.1 % cols, q.2)) :=
  setAll_rec_aux V pv cols vals 0 start

/-- C7: for every CSV input and every rows and nonzero cols, the element
string is split on commas, each piece trimmed and parsed, and the i-th
element of the flat sequence is written to row i / cols, column i % cols of
the fresh native matrix, in order; the element count is never compared with
rows * cols (the equation holds for every count, and the witness uses a
mismatched one). -/
theorem matrix_csv_placement (V : Type) (pv : String → V) (rows cols : Nat)
    (csv : String) (hc : cols ≠ 0)
    (hn : (splitComma csv).all (fun p => !containsNul (trimS p)) = true) :
    (do
      let elems ← parseElems (recNative V pv) csv
      Matrix.from_vec (recNative V pv) rows cols elems) =
      Except.ok (Matrix.mk
        (((splitComma csv).map (fun p => pv (trimS p))).enum.map
          (fun q => (q.1 / cols, q.1 % cols, q.2)))) := by
  rw [show (do
      let elems ← parseElems (recNative V pv) csv
      Matrix.from_vec (recNative V pv) rows cols elems : Panics (Matrix (recNative V pv))) =
    (parseElems (recNative V pv) csv) >>= Matrix.from_vec (recNative V pv) rows cols
    from rfl]
  rw [parseElems_ok _ csv hn]
  have hc2 : ¬ (cols = 0 ∧ (List.map
      (fun p => ({ val := (recNative V pv).parseVal (trimS p) } : Expr (recNative V pv)))
      (splitComma csv)).isEmpty = false) := fun h => hc h.1
  simp only [Bind.bind, Except.bind, Matrix.from_vec, if_neg hc2]
  rw [List.map_map]
  show Except.ok (Matrix.mk
    (setAll (recNative V pv) cols [] (List.map (fun p => pv (trimS p)) (splitComma csv)))) = _
  rw [setAll_rec]
  rw [List.nil_append]

/-- C7 witness: a 1 by 1 matrix given three comma-separated elements; the
count mismatch is not rejected and the writes land at (0,0), (1,0), (2,0). -/
theorem matrix_csv_placement_witness :
    (do
      let elems ← parseElems (recNative String (fun s => s)) "a, b, c"
      Matrix.from_vec (recNative String (fun s => s)) 1 1 elems) =
      Except.ok (Matrix.mk [(0, 0, "a"), (1, 0, "b"), (2, 0, "c")]) := by
  have h := matrix_csv_placement String (fun s => s) 1 1 "a, b, c" (by decide) (by decide)
  rw [h]
  rfl

/-- C8: the exported numer_denom renders the numerator text, then the
three-character separator space-pipe-space, then the denominator text, the
pair coming from the wrapper numer_denom of the parsed expression. -/
theorem numer_denom_format (N : Native) (expr : String)
    (h : containsNul expr = false) :
    numer_denom N expr =
      Except.ok (N.str (N.numerVal (N.parseVal expr)) ++ " | " ++
        N.str (N.denomVal (N.parseVal expr))) := by
  simp [numer_denom, Expr.parse, h, Expr.numer_denom, Expr.toStr, Except.map]

/-- C8 witness on the concrete engine: numerator 0, denominator 1. -/
theorem numer_denom_format_witness :
    numer_denom failNative "x" = Except.ok "0 | 1" := by
  have h := numer_denom_format failNative "x" (by decide)
  rw [h]
  rfl

/-- C9: the exported evalf always calls the native evaluation with exactly
53 bits and the real/complex flag 0, for every input; the wrapper-level
evalf, in contrast, passes through any caller-chosen bit count (always with
flag 0), so the restriction to 53 bits is imposed by the export alone. -/
theorem evalf_fixed_precision (N : Native) (expr : String)
    (h : containsNul expr = false) :
    evalf N expr = Except.ok (N.str (N.evalfVal (N.parseVal expr) 53 0)) ∧
    (∀ (e : Expr N) (bits : Nat),
      Expr.evalf e bits = { val := N.evalfVal e.val bits 0 }) := by
  constructor
  · simp [evalf, Expr.parse, h, Expr.evalf, Expr.toStr, Except.map]
  · intro e bits
    rfl

/-- C9 witness: on the concrete engine the export yields 0 + 53 + 0. -/
theorem evalf_fixed_precision_witness :
    evalf failNative "x" = Except.ok "53" ∧
    (∀ (e : Expr failNative) (bits : Nat),
      Expr.evalf e bits = { val := failNative.evalfVal e.val bits 0 }) := by
  obtain ⟨h1, h2⟩ := evalf_fixed_precision failNative "x" (by decide)
  refine ⟨?_, h2⟩
  rw [h1]
  rfl

/-- C10: Matrix::from_vec with cols = 0 and a nonempty element sequence
panics with the u32 divide-by-zero panic, for every engine and row count:
it returns neither a Matrix nor any other outcome. -/
theorem from_vec_zero_cols_panics (N : Native) (rows : Nat)
    (elems : List (Expr N)) (h : elems.isEmpty = false) :
    Matrix.from_vec N rows 0 elems = Except.error "attempt to divide by zero" := by
  simp [Matrix.from_vec, h]

/-- C10 witness at a singleton element list. -/
theorem from_vec_zero_cols_panics_witness :
    Matrix.from_vec failNative 2 0 [{ val := failNative.parseVal "x" }] =
      Except.error "attempt to divide by zero" :=
  from_vec_zero_cols_panics failNative 2 [{ val := failNative.parseVal "x" }] rfl

end Wrapper
